import Mathlib

/-!
Verification development for the DeFi-Pulse-Adapters batch-call aggregation
engine (src/sdk/api.js) and the Dfyn TVL adapter (src/unnamed/part_000).

The JavaScript source is shallowly embedded: JS dynamic values become the
`JsValue` inductive, JS arrays become Lean lists, JS objects become
association lists in insertion order, and asynchronous sequencing under the
default concurrency limit of 1 becomes explicit left-to-right folds.
-/

/-- A JS dynamic value, as minimally needed by the embedded code:
`nil` stands for both `null` and `undefined`. -/
inductive JsValue where
  | nil : JsValue
  | num : Int → JsValue
  | str : String → JsValue
  | arr : List JsValue → JsValue
  | obj : List (String × JsValue) → JsValue

/-- JS `String.prototype.toLowerCase`, restricted to the ASCII range that
contract addresses occupy: lower-case every character. -/
def jsToLowerCase (s : String) : String :=
  String.mk (s.data.map Char.toLower)

/-- JS truthiness of the `ethCallCount` field of a response: `undefined`
(here `none`) and the number `0` are falsy, every other count is truthy.
Embeds the test `if (call.ethCallCount)` at src/sdk/api.js line 96. -/
def truthy : Option Nat → Bool
  | none => false
  | some n => n != 0

/-- JS array spread concatenation `[...a, ...b]` (src/sdk/api.js lines
100-103); spreading a non-array would throw in JS and is mapped to `nil`. -/
def jsSpreadConcat : JsValue → JsValue → JsValue
  | .arr a, .arr b => .arr (a ++ b)
  | _, _ => .nil

/-- JS `output.push(call.output)` (src/sdk/api.js line 105): append one
element to an array value. -/
def jsPush : JsValue → JsValue → JsValue
  | .arr a, v => .arr (a ++ [v])
  | v, _ => v

/-- The slicing loop shared by underscore's `_.chunk` (src/sdk/api.js line
69) and the manual chunking loop of src/unnamed/part_000 lines 115-119:
each iteration takes the next `count` elements.  The loop runs at most
`fuel` iterations; `chunkJS` supplies `fuel = l.length`, which is enough
because every iteration with `count ≥ 1` consumes at least one element. -/
def chunkGo (count : Nat) : Nat → List α → List (List α)
  | _, [] => []
  | 0, _ => []
  | fuel + 1, a :: l => (a :: l).take count :: chunkGo count fuel ((a :: l).drop count)

/-- Underscore's `_.chunk(array, count)` (used at src/sdk/api.js line 69):
a count below 1 yields no chunks, otherwise the slicing loop runs.  For
`count ≥ 1` this is also exactly the manual loop of src/unnamed/part_000
lines 115-119 (that loop's `chunk` constant is 2500). -/
def chunkJS (count : Nat) (l : List α) : List (List α) :=
  if count = 0 then [] else chunkGo count l.length l

/-- One logical on-chain read request, as built by the adapter:
`target` is the contract whose method is called and `params` the single
argument (the pair address, for balance calls).  Embeds the objects pushed
at src/unnamed/part_000 lines 100-103 and 106-110. -/
structure CallDesc where
  target : String
  params : String
deriving DecidableEq, Repr

/-- The `chunk` option of `POST` (src/sdk/api.js line 68): the name of the
request field holding the descriptor list, the maximum chunk length, and
the combine-mode tag (`"array"` or `"balances"`). -/
structure ChunkCfg where
  param : String
  length : Nat
  combine : String
deriving DecidableEq, Repr

/-- A remote response as consumed by `processRequest` (src/sdk/api.js lines
96-106): a possibly-missing `ethCallCount` and an `output` value. -/
structure RResult where
  ethCallCount : Option Nat
  output : JsValue

/-- The accumulation body of `processRequest` (src/sdk/api.js lines
96-107), applied to the running `(ethCallCount, output)` accumulator when
one chunk's call resolves: if the chunk's reported `ethCallCount` is
truthy the count is added and the chunk's output is combined according to
`options.chunk.combine`; otherwise the accumulator is left untouched (the
chunk's output is not recorded). -/
def processRequest (cfg : ChunkCfg) (acc : Nat × JsValue) (call : RResult) : Nat × JsValue :=
  if truthy call.ethCallCount then
    (acc.1 + call.ethCallCount.getD 0,
      if cfg.combine = "array" then jsSpreadConcat acc.2 call.output
      else if cfg.combine = "balances" then jsPush acc.2 call.output
      else acc.2)
  else acc

/-- Folding `processRequest` over the chunk results in the order their
executions complete, starting from `ethCallCount = 0`, `output = []`
(src/sdk/api.js lines 71-72).  The list argument carries the results in
completion order: under the default `ADAPTER_CONCURRENCY = 1` limiter
(src/sdk/api.js lines 110-118) that order is the chunk-index order. -/
def combineChunkResults (cfg : ChunkCfg) (results : List RResult) : Nat × JsValue :=
  results.foldl (processRequest cfg) (0, JsValue.arr [])

/-- Completion-order selection: given the per-chunk results in chunk-index
order and the sequence of chunk indices in the order the chunks finished,
produce the results in completion order.  Models the arbitrary completion
interleaving of the `Bottleneck` limiter at src/sdk/api.js lines 110-118. -/
def applyOrder (results : List RResult) (order : List Nat) : List RResult :=
  order.filterMap (fun i => results.get? i)

/-- Add `n` to key `k` of a balance accumulator, inserting the key at the
end when absent. -/
def addBalance : List (String × Int) → String → Int → List (String × Int)
  | [], k, n => [(k, n)]
  | (k', v) :: rest, k, n =>
    if k' = k then (k', v + n) :: rest else (k', v) :: addBalance rest k n

/-- Modelled from the spec: `utility.sum` (src/sdk/api.js line 126 calls
it, but src/sdk/util.js is not part of the source tree).  Per §4.3
sum-by-key mode, the collected per-chunk balance mappings are merged
additively: every address key's combined value is the sum of its values
across the chunks in which it appears. -/
def utilitySum (v : JsValue) : JsValue :=
  match v with
  | .arr ms =>
    .obj ((ms.foldl (fun acc m =>
      match m with
      | .obj kvs => kvs.foldl (fun acc kv =>
          match kv.2 with
          | .num n => addBalance acc kv.1 n
          | _ => acc) acc
      | _ => acc) []).map (fun p => (p.1, JsValue.num p.2)))
  | _ => v

/-- Sequential effect-free `mapM` over `Option`, used to express "every
recursive chunk call resolved". -/
def mapMOption (f : α → Option β) : List α → Option (List β)
  | [] => some []
  | a :: as =>
    match f a with
    | none => none
    | some b =>
      match mapMOption f as with
      | none => none
      | some bs => some (b :: bs)

/-- Fuelled embedding of `POST` (src/sdk/api.js lines 66-147) with an
infallible remote executor, tracking how many network round-trips
(`axios.post`, line 140) are performed.  The request's descriptor list
(`options[options.chunk.param]`) is carried directly as `calls`.  When the
chunk option is present and the list is strictly longer than the chunk
length, the list is chunked and `POST` recurses on each chunk with the
same options (lines 82-89; the recursive request keeps the `chunk`
option); under the default concurrency limit of 1 the per-chunk results
are combined in chunk order, and `balances` mode applies `utility.sum` at
the end (lines 124-127).  Otherwise one network call is made and its
response returned (lines 133-142).  `fuel` bounds the recursion depth;
running out of fuel yields `none`. -/
def POSTfuel (exec : List CallDesc → RResult) : Nat → List CallDesc → Option ChunkCfg → Option (RResult × Nat)
  | 0, _, _ => none
  | fuel + 1, calls, cfgOpt =>
    match cfgOpt with
    | some cfg =>
      if calls.length > cfg.length then
        match mapMOption (fun c => POSTfuel exec fuel c (some cfg)) (chunkJS cfg.length calls) with
        | none => none
        | some rs =>
          let combined := combineChunkResults cfg (rs.map Prod.fst)
          some (⟨some combined.1,
                 if cfg.combine = "balances" then utilitySum combined.2 else combined.2⟩,
                (rs.map Prod.snd).sum)
      else some (exec calls, 1)
    | none => some (exec calls, 1)

/-- A thrown JS error as handled by `maybePreSerializeAxiosError`
(src/sdk/api.js lines 26-42): a message, an optional axios `response`
object, a `config` object and an optional `request` object, the latter
three modelled as property lists (an absent `config` is the empty list,
since underscore's `_.pick(undefined, ...)` yields an empty object). -/
structure JsError where
  message : String
  response : Option (List (String × String))
  config : List (String × String)
  request : Option (List (String × String))
deriving DecidableEq, Repr

/-- Underscore's `_.pick(obj, keys)`: iterate the keys in order and keep
each key that is present in the object, with its value. -/
def pickProps (keys : List String) (props : List (String × String)) : List (String × String) :=
  keys.filterMap (fun k => (props.find? (fun p => p.1 = k)).map (fun p => (k, p.2)))

/-- src/sdk/api.js lines 26-42: an error without a `response` is returned
untouched; an axios error (one with a `response`) has its `response`
trimmed to `status`/`statusText`/`data`, its `config` trimmed to
`method`/`url`/`data`, and its `request` deleted. -/
def maybePreSerializeAxiosError (e : JsError) : JsError :=
  match e.response with
  | none => e
  | some r =>
    { e with
      response := some (pickProps ["status", "statusText", "data"] r)
      config := pickProps ["method", "url", "data"] e.config
      request := none }

/-- Sequential `mapM` over `Except`: stop at the first error.  Models the
default-concurrency (`ADAPTER_CONCURRENCY = 1`) behaviour of
`Promise.all` over the limiter-scheduled chunk executions (src/sdk/api.js
lines 110-118): the first rejection rejects the whole batch. -/
def mapMExcept (f : α → Except ε β) : List α → Except ε (List β)
  | [] => .ok []
  | a :: as =>
    match f a with
    | .error e => .error e
    | .ok b =>
      match mapMExcept f as with
      | .error e => .error e
      | .ok bs => .ok (b :: bs)

/-- A non-chunking `POST` (the else-branch, src/sdk/api.js lines 133-142,
together with the catch at lines 144-146): forward the call list to the
remote executor; on failure rethrow the pre-serialized error.  By
`ethCall_depth_two` below, the recursive calls made by the chunking branch
always take this non-chunking path. -/
def POSTdirect (exec : List CallDesc → Except JsError RResult) (calls : List CallDesc) :
    Except JsError RResult :=
  match exec calls with
  | .error e => .error (maybePreSerializeAxiosError e)
  | .ok r => .ok r

/-- Dispatch every chunk through a recursive `POST` under the default
concurrency limit of 1 (src/sdk/api.js lines 110-118). -/
def dispatchChunks (exec : List CallDesc → Except JsError RResult)
    (chunks : List (List CallDesc)) : Except JsError (List RResult) :=
  mapMExcept (POSTdirect exec) chunks

/-- The chunking branch of `POST` with a fallible remote executor
(src/sdk/api.js lines 68-132 plus the catch at lines 144-146): chunk the
descriptor list, dispatch every chunk, rethrow the pre-serialized error if
any chunk fails, otherwise combine the chunk results (applying
`utility.sum` in `balances` mode, lines 124-127). -/
def POSTchunked (exec : List CallDesc → Except JsError RResult) (cfg : ChunkCfg)
    (calls : List CallDesc) : Except JsError RResult :=
  match dispatchChunks exec (chunkJS cfg.length calls) with
  | .error e => .error (maybePreSerializeAxiosError e)
  | .ok rs =>
    let combined := combineChunkResults cfg rs
    .ok ⟨some combined.1,
         if cfg.combine = "balances" then utilitySum combined.2 else combined.2⟩

/-- The supported-token membership test of the adapter (src/unnamed/part_000
lines 77 and 87): the on-chain token address is lower-cased and looked up
verbatim in the supplied allow-list.  The allow-list itself is used as
supplied (lines 9-20 apply no case normalization to it). -/
def tokenIsSupported (supportedTokens : List String) (tokenOutput : String) : Bool :=
  supportedTokens.contains (jsToLowerCase tokenOutput)

/-- One token-info record from the external supported-token source, with
its per-platform address map (src/unnamed/part_000 lines 14-18). -/
structure TokenInfo where
  platforms : List (String × String)

/-- src/unnamed/part_000 lines 9-20: map every supported-token record to
its `polygon-pos` platform address when that entry is present and truthy
(a missing or empty address yields `undefined`), then filter out the falsy
entries.  No lower-casing happens here. -/
def supportedTokensOf (tokens : List TokenInfo) : List String :=
  (tokens.map (fun t =>
    match (t.platforms.find? (fun p => p.1 = "polygon-pos")).map Prod.snd with
    | some a => if a ≠ "" then some a else none
    | none => none)).filterMap id

/-- The per-pair record accumulated in `tokenPairs` (src/unnamed/part_000
lines 74-94). -/
structure PairRecord where
  token0Address : Option String
  token1Address : Option String
deriving DecidableEq, Repr

/-- JS object property assignment `obj[k] = v` on an object embedded as an
association list in insertion order: an existing key keeps its position,
a new key is appended. -/
def objectAssign (k : String) (v : PairRecord) :
    List (String × PairRecord) → List (String × PairRecord)
  | [] => [(k, v)]
  | (k', v') :: rest =>
    if k' = k then (k, v) :: rest else (k', v') :: objectAssign k v rest

/-- The expression `pairs[pairAddress]` at src/unnamed/part_000 line 90:
`pairs` is the array of `allPairs` multicall results, indexed by integer
position, and `pairAddress` is a hex-address string, which is never a
valid array index, so the property access always evaluates to
`undefined` — at every element type the array could hold and every type
the surrounding spread expects. -/
def jsArrayLookupString (array : List α) (key : String) : Option β := none

/-- First discovery pass (src/unnamed/part_000 lines 76-83): for each
`token0` result whose lower-cased output is in the allow-list, assign a
fresh record holding only `token0Address` to `tokenPairs[pairAddress]`. -/
def addToken0Addresses (supportedTokens pairAddresses token0Outputs : List String)
    (tokenPairs : List (String × PairRecord)) : List (String × PairRecord) :=
  token0Outputs.enum.foldl (fun tp it =>
    if tokenIsSupported supportedTokens it.2 then
      objectAssign (pairAddresses.getD it.1 "")
        ⟨some (jsToLowerCase it.2), none⟩ tp
    else tp) tokenPairs

/-- Second discovery pass (src/unnamed/part_000 lines 86-94): for each
`token1` result whose lower-cased output is in the allow-list, assign to
`tokenPairs[pairAddress]` the spread of `pairs[pairAddress] || ` the empty
object — which, since `pairs[pairAddress]` is always `undefined` (see
`jsArrayLookupString`), is a record holding only `token1Address`,
overwriting any record stored by the first pass. -/
def addToken1Addresses (supportedTokens pairAddresses : List String)
    (pairsArray : List String) (token1Outputs : List String)
    (tokenPairs : List (String × PairRecord)) : List (String × PairRecord) :=
  token1Outputs.enum.foldl (fun tp it =>
    if tokenIsSupported supportedTokens it.2 then
      let pairAddress := pairAddresses.getD it.1 ""
      let base : PairRecord :=
        (jsArrayLookupString pairsArray pairAddress).getD ⟨none, none⟩
      objectAssign pairAddress { base with token1Address := some (jsToLowerCase it.2) } tp
    else tp) tokenPairs

/-- src/unnamed/part_000 lines 96-112: walk `tokenPairs` in key-insertion
order and push one balance CallDescriptor per populated token field,
`target` the token address and `params` the pair address. -/
def buildBalanceCalls (tokenPairs : List (String × PairRecord)) : List CallDesc :=
  tokenPairs.foldl (fun acc pr =>
    let acc :=
      match pr.2.token0Address with
      | some t0 => acc ++ [⟨t0, pr.1⟩]
      | none => acc
    match pr.2.token1Address with
    | some t1 => acc ++ [⟨t1, pr.1⟩]
    | none => acc) []

/-- src/unnamed/part_000 lines 44 and 74-94: lower-case the discovered
pair addresses, then run the two discovery passes on an initially empty
`tokenPairs` object. -/
def tvlTokenPairs (supportedTokens pairsOutputs token0Outputs token1Outputs : List String) :
    List (String × PairRecord) :=
  let pairAddresses := pairsOutputs.map jsToLowerCase
  addToken1Addresses supportedTokens pairAddresses pairsOutputs token1Outputs
    (addToken0Addresses supportedTokens pairAddresses token0Outputs [])

/-- src/unnamed/part_000 lines 137-143: substitute the zero-address/zero
sentinel when the accumulated balance mapping has no keys, otherwise
return the accumulated mapping unchanged.  The sentinel's value is the
plain number `0`. -/
def finalizeBalances (balances : List (String × JsValue)) : List (String × JsValue) :=
  if balances.length = 0 then
    [("0x0000000000000000000000000000000000000000", JsValue.num 0)]
  else balances

/-- The remote reads issued by the head of `tvl` (src/unnamed/part_000
lines 8-42), in issue order. -/
inductive TvlCall where
  | supportedTokensCall : TvlCall
  | allPairsLengthCall : TvlCall
  | allPairsCall : Nat → TvlCall
deriving DecidableEq, Repr

/-- The discovery head of `tvl` (src/unnamed/part_000 lines 8-42), given
the `output` of the factory `allPairsLength` read (`none` embeds JS
`null`): after the supported-token read and the single factory
pair-count read, a `null` pair count throws
`Error("allPairsLength() failed")` before any further call; otherwise
`pairNums` is `0, ..., pairLength - 1` and the `allPairs` multicall over
those indices is issued. -/
def tvlDiscover (pairLengthOutput : Option Nat) : Except String (List Nat) × List TvlCall :=
  match pairLengthOutput with
  | none => (.error "allPairsLength() failed",
             [.supportedTokensCall, .allPairsLengthCall])
  | some n => (.ok (List.range n),
               [.supportedTokensCall, .allPairsLengthCall, .allPairsCall n])

/-- The `abi.multiCall` chunk configuration shape (src/sdk/api.js line 263)
with a chunk length of 1, so that a two-descriptor request is split into
two chunks in the concrete instances below. -/
def cfgArray1 : ChunkCfg := ⟨"calls", 1, "array"⟩

/-- A concrete balance CallDescriptor. -/
def descA : CallDesc := ⟨"0xt0", "0xp0"⟩

/-- A second concrete balance CallDescriptor. -/
def descB : CallDesc := ⟨"0xt1", "0xp1"⟩

/-- A concrete decoding of one descriptor's remote output. -/
def strOut : CallDesc → JsValue := fun d => JsValue.str d.target

/-- A chunk result reporting one call and output `"a"`. -/
def rComplA : RResult := ⟨some 1, JsValue.arr [JsValue.str "a"]⟩

/-- A chunk result reporting one call and output `"b"`. -/
def rComplB : RResult := ⟨some 1, JsValue.arr [JsValue.str "b"]⟩

/-- A concrete axios-style error: it carries a `response` with an extra
`headers` property, a `config` with an extra `timeout` property, and a
`request`. -/
def eAxios : JsError :=
  ⟨"http 500", some [("status", "500"), ("headers", "hhh")],
   [("method", "post"), ("timeout", "9")], some [("sock", "s")]⟩

/-- A remote executor whose every call fails with `eAxios`. -/
def execAlwaysError : List CallDesc → Except JsError RResult :=
  fun _ => Except.error eAxios

/-- A concrete error with no `response` property. -/
def eNoResponse : JsError := ⟨"boom", none, [], none⟩

/-- A remote executor that fails with `eNoResponse` exactly on the chunk
`[descB]` and succeeds on every other chunk. -/
def execFailSecond : List CallDesc → Except JsError RResult := fun calls =>
  if calls = [descB] then Except.error eNoResponse
  else Except.ok ⟨some 1, JsValue.arr []⟩

/-- A remote executor returning a fixed non-empty response. -/
def execStub7 : List CallDesc → RResult :=
  fun _ => ⟨some 7, JsValue.arr [JsValue.str "x"]⟩

/-- The `abi.multiCall` chunk configuration exactly as at src/sdk/api.js
line 263: chunk length 5000, `array` combine mode. -/
def cfg5000 : ChunkCfg := ⟨"calls", 5000, "array"⟩

lemma chunkGo_join (count : Nat) (hc : 1 ≤ count) :
    ∀ (fuel : Nat) (l : List α), l.length ≤ fuel → (chunkGo count fuel l).flatten = l := by
  intro fuel
  induction fuel with
  | zero =>
    intro l hl
    have : l = [] := List.eq_nil_of_length_eq_zero (Nat.le_zero.mp hl)
    subst this
    rfl
  | succ fuel ih =>
    intro l hl
    cases l with
    | nil => rfl
    | cons a l' =>
      have hdrop : ((a :: l').drop count).length ≤ fuel := by
        rw [List.length_drop]
        simp only [List.length_cons] at hl ⊢
        omega
      calc (chunkGo count (fuel + 1) (a :: l')).flatten
          = (a :: l').take count ++ (chunkGo count fuel ((a :: l').drop count)).flatten := by
            rfl
        _ = (a :: l').take count ++ (a :: l').drop count := by rw [ih _ hdrop]
        _ = a :: l' := List.take_append_drop count (a :: l')

lemma chunkGo_length_le (count : Nat) :
    ∀ (fuel : Nat) (l : List α), ∀ c ∈ chunkGo count fuel l, c.length ≤ count := by
  intro fuel
  induction fuel with
  | zero =>
    intro l c hc
    cases l with
    | nil => cases hc
    | cons a l' => cases hc
  | succ fuel ih =>
    intro l c hc
    cases l with
    | nil => cases hc
    | cons a l' =>
      rcases List.mem_cons.mp hc with rfl | hc
      · rw [List.length_take]
        exact Nat.min_le_left _ _
      · exact ih _ _ hc

lemma chunkGo_ne_nil (count : Nat) (hc : 1 ≤ count) :
    ∀ (fuel : Nat) (l : List α), ∀ c ∈ chunkGo count fuel l, c ≠ [] := by
  intro fuel
  induction fuel with
  | zero =>
    intro l c hmem
    cases l with
    | nil => cases hmem
    | cons a l' => cases hmem
  | succ fuel ih =>
    intro l c hmem
    cases l with
    | nil => cases hmem
    | cons a l' =>
      rcases List.mem_cons.mp hmem with rfl | hmem
      · intro hEq
        rw [List.take_eq_nil_iff] at hEq
        rcases hEq with hEq | hEq
        · omega
        · cases hEq
      · exact ih _ _ hmem

lemma chunkJS_join {α : Type} (count : Nat) (hc : 1 ≤ count) (l : List α) :
    (chunkJS count l).flatten = l := by
  unfold chunkJS
  rw [if_neg (by omega)]
  exact chunkGo_join count hc l.length l (Nat.le_refl _)

lemma chunkJS_length_le {α : Type} (count : Nat) (l : List α) :
    ∀ c ∈ chunkJS count l, c.length ≤ count := by
  unfold chunkJS
  by_cases h : count = 0
  · rw [if_pos h]
    intro c hc
    cases hc
  · rw [if_neg h]
    exact chunkGo_length_le count l.length l

lemma chunkJS_ne_nil {α : Type} (count : Nat) (hc : 1 ≤ count) (l : List α) :
    ∀ c ∈ chunkJS count l, c ≠ [] := by
  unfold chunkJS
  rw [if_neg (by omega)]
  exact chunkGo_ne_nil count hc l.length l

lemma chunkJS_sum_length {α : Type} (count : Nat) (hc : 1 ≤ count) (l : List α) :
    ((chunkJS count l).map List.length).sum = l.length := by
  have h := chunkJS_join count hc l
  calc ((chunkJS count l).map List.length).sum
      = (chunkJS count l).flatten.length := (List.length_flatten _).symm
    _ = l.length := by rw [h]

lemma foldl_processRequest_arr (cfg : ChunkCfg) (harr : cfg.combine = "array")
    {β : Type} (g : β → Nat) (outF : β → List JsValue) :
    ∀ (chunks : List β) (cnt : Nat) (out : List JsValue),
      (∀ c ∈ chunks, g c ≠ 0) →
      List.foldl (processRequest cfg) (cnt, JsValue.arr out)
          (chunks.map fun c => RResult.mk (some (g c)) (JsValue.arr (outF c)))
        = (cnt + (chunks.map g).sum, JsValue.arr (out ++ (chunks.map outF).flatten)) := by
  intro chunks
  induction chunks with
  | nil =>
    intro cnt out _
    simp
  | cons c cs ih =>
    intro cnt out hne
    have hc : g c ≠ 0 := hne c (List.mem_cons_self _ _)
    have hstep : processRequest cfg (cnt, JsValue.arr out)
        (RResult.mk (some (g c)) (JsValue.arr (outF c)))
        = (cnt + g c, JsValue.arr (out ++ outF c)) := by
      simp [processRequest, truthy, harr, jsSpreadConcat, hc]
    simp only [List.map_cons, List.foldl_cons, hstep]
    rw [ih (cnt + g c) (out ++ outF c) (fun x hx => hne x (List.mem_cons_of_mem _ hx))]
    simp [Nat.add_assoc, List.append_assoc]

lemma filterMap_get_range {α : Type} :
    ∀ l : List α, (List.range l.length).filterMap (fun i => l.get? i) = l := by
  intro l
  induction l with
  | nil => rfl
  | cons a as ih =>
    rw [List.length_cons, List.range_succ_eq_map]
    rw [List.filterMap_cons]
    simp only [List.get?_cons_zero, List.filterMap_map]
    have : (fun i => (a :: as).get? (Nat.succ i)) = (fun i => as.get? i) := by
      funext i
      exact List.get?_cons_succ
    simp only [Function.comp_def, List.get?_cons_succ]
    rw [ih]

lemma applyOrder_range (results : List RResult) :
    applyOrder results (List.range results.length) = results :=
  filterMap_get_range results

lemma mapMOption_isSome {α β : Type} (f : α → Option β) :
    ∀ l : List α, (∀ a ∈ l, (f a).isSome) → (mapMOption f l).isSome := by
  intro l
  induction l with
  | nil => intro _; rfl
  | cons a as ih =>
    intro h
    have ha := h a (List.mem_cons_self _ _)
    obtain ⟨b, hb⟩ := Option.isSome_iff_exists.mp ha
    have has := ih (fun x hx => h x (List.mem_cons_of_mem _ hx))
    obtain ⟨bs, hbs⟩ := Option.isSome_iff_exists.mp has
    simp [mapMOption, hb, hbs]

lemma mapMExcept_append_error {α β : Type} (f : α → Except JsError β)
    (c : α) (post : List α) (e : JsError) (hc : f c = .error e) :
    ∀ pre : List α, (∀ x ∈ pre, ∃ r, f x = .ok r) →
      mapMExcept f (pre ++ c :: post) = .error e := by
  intro pre
  induction pre with
  | nil =>
    intro _
    simp [mapMExcept, hc]
  | cons a as ih =>
    intro h
    obtain ⟨r, hr⟩ := h a (List.mem_cons_self _ _)
    have hrest := ih (fun x hx => h x (List.mem_cons_of_mem _ hx))
    simp [mapMExcept, hr, hrest]

lemma POSTfuel_succ_some (exec : List CallDesc → RResult) (fuel : Nat)
    (calls : List CallDesc) (cfg : ChunkCfg) :
    POSTfuel exec (fuel + 1) calls (some cfg) =
      if calls.length > cfg.length then
        match mapMOption (fun c => POSTfuel exec fuel c (some cfg)) (chunkJS cfg.length calls) with
        | none => none
        | some rs =>
          let combined := combineChunkResults cfg (rs.map Prod.fst)
          some (⟨some combined.1,
                 if cfg.combine = "balances" then utilitySum combined.2 else combined.2⟩,
                (rs.map Prod.snd).sum)
      else some (exec calls, 1) := rfl

lemma POSTfuel_succ_none (exec : List CallDesc → RResult) (fuel : Nat)
    (calls : List CallDesc) :
    POSTfuel exec (fuel + 1) calls none = some (exec calls, 1) := rfl

lemma combineChunkResults_execCorrect (cfg : ChunkCfg) (harr : cfg.combine = "array")
    (M : Nat) (hM : 1 ≤ M) (l : List CallDesc) (f : CallDesc → JsValue) :
    combineChunkResults cfg
        ((chunkJS M l).map fun c => RResult.mk (some c.length) (JsValue.arr (List.map f c)))
      = (l.length, JsValue.arr (List.map f l)) := by
  have hne : ∀ c ∈ chunkJS M l, c.length ≠ 0 := by
    intro c hc
    have h := chunkJS_ne_nil M hM l c hc
    simpa [List.length_eq_zero] using h
  unfold combineChunkResults
  rw [foldl_processRequest_arr cfg harr List.length (List.map f) (chunkJS M l) 0 [] hne]
  rw [chunkJS_sum_length M hM l]
  rw [← List.map_flatten, chunkJS_join M hM l]
  simp

/-- C1 (corrected, counterexample): the claim that a chunk whose result has
a zero `ethCallCount` still contributes its output is false.  A single
chunk result reporting `ethCallCount = 0` with a non-empty output is
combined to count `0` and an empty output: the descriptor's output is
dropped and the accumulated count differs from the one submitted
descriptor. -/
theorem c1_zero_count_drops_output :
    combineChunkResults cfgArray1 [⟨some 0, JsValue.arr [JsValue.str "x"]⟩]
      = (0, JsValue.arr [])
    ∧ combineChunkResults cfgArray1 [⟨some 0, JsValue.arr [JsValue.str "x"]⟩]
        ≠ ((1 : Nat), JsValue.arr [JsValue.str "x"]) := by
  constructor
  · rfl
  · intro h
    have h2 : ((0 : Nat), JsValue.arr []) = ((1 : Nat), JsValue.arr [JsValue.str "x"]) := h
    simp at h2

/-- C1 (amended): in `array` combine mode, when every chunk result reports
a truthy `ethCallCount` — in particular when the executor reports each
chunk's count as the chunk's length and the chunk size is at least 1, so
every chunk is non-empty — the accumulated `ethCallCount` equals the total
number of submitted CallDescriptors and the combined output is every
descriptor's output exactly once, in order.  (A chunk result with a zero
or missing `ethCallCount` is instead skipped entirely, per the
counterexample.) -/
theorem c1_accounting_for_truthy_counts (cfg : ChunkCfg) (harr : cfg.combine = "array")
    (M : Nat) (hM : 1 ≤ M) (l : List CallDesc) (f : CallDesc → JsValue) :
    combineChunkResults cfg
        ((chunkJS M l).map fun c => RResult.mk (some c.length) (JsValue.arr (List.map f c)))
      = (l.length, JsValue.arr (List.map f l)) :=
  combineChunkResults_execCorrect cfg harr M hM l f

/-- C1 witness: the accounting theorem at chunk size 1 over two concrete
descriptors. -/
theorem c1_accounting_witness :
    combineChunkResults cfgArray1
        ((chunkJS 1 [descA, descB]).map fun c =>
          RResult.mk (some c.length) (JsValue.arr (List.map strOut c)))
      = ([descA, descB].length, JsValue.arr (List.map strOut [descA, descB])) :=
  c1_accounting_for_truthy_counts cfgArray1 rfl 1 (by decide) [descA, descB] strOut

/-- C2 (corrected, counterexample): the claim that the combined `array`
output is independent of chunk completion order is false.  Two chunk
results combined in the completion order `[1, 0]` — a permutation of the
chunk indices — yield a different output than in chunk-index order. -/
theorem c2_completion_order_changes_output :
    List.Perm (applyOrder [rComplA, rComplB] [1, 0]) [rComplA, rComplB]
    ∧ combineChunkResults cfgArray1 (applyOrder [rComplA, rComplB] [1, 0])
        ≠ combineChunkResults cfgArray1 [rComplA, rComplB] := by
  constructor
  · have h : applyOrder [rComplA, rComplB] [1, 0] = [rComplB, rComplA] := rfl
    rw [h]
    exact List.Perm.swap rComplA rComplB []
  · intro h
    have h2 : ((2 : Nat), JsValue.arr [JsValue.str "b", JsValue.str "a"])
        = ((2 : Nat), JsValue.arr [JsValue.str "a", JsValue.str "b"]) := h
    simp at h2

/-- C2 (amended): the combined `array` output is the concatenation of the
per-chunk outputs in completion order; when the completion order is the
chunk-index order — which is what the default sequential
`ADAPTER_CONCURRENCY = 1` limiter produces — the combined output equals
the original full input sequence mapped through the executor. -/
theorem c2_sequential_concat_order (cfg : ChunkCfg) (harr : cfg.combine = "array")
    (M : Nat) (hM : 1 ≤ M) (l : List CallDesc) (f : CallDesc → JsValue) :
    combineChunkResults cfg
        (applyOrder
          ((chunkJS M l).map fun c => RResult.mk (some c.length) (JsValue.arr (List.map f c)))
          (List.range
            ((chunkJS M l).map fun c =>
              RResult.mk (some c.length) (JsValue.arr (List.map f c))).length))
      = (l.length, JsValue.arr (List.map f l)) := by
  rw [applyOrder_range]
  exact combineChunkResults_execCorrect cfg harr M hM l f

/-- C2 witness: the sequential-order theorem at chunk size 1 over two
concrete descriptors. -/
theorem c2_sequential_concat_order_witness :
    combineChunkResults cfgArray1
        (applyOrder
          ((chunkJS 1 [descA, descB]).map fun c =>
            RResult.mk (some c.length) (JsValue.arr (List.map strOut c)))
          (List.range
            ((chunkJS 1 [descA, descB]).map fun c =>
              RResult.mk (some c.length) (JsValue.arr (List.map strOut c))).length))
      = ([descA, descB].length, JsValue.arr (List.map strOut [descA, descB])) :=
  c2_sequential_concat_order cfgArray1 rfl 1 (by decide) [descA, descB] strOut

/-- C3 (corrected, counterexample): the claim that a failing chunk's error
is propagated unchanged is false.  With an executor that fails with an
axios-style error carrying extra `response`/`config` properties and a
`request`, the chunked POST rejects with a modified error: the extra
properties are stripped and the `request` is deleted, so the propagated
error differs from the thrown one. -/
theorem c3_error_is_modified :
    POSTchunked execAlwaysError cfgArray1 [descA, descB]
      = Except.error ⟨"http 500", some [("status", "500")], [("method", "post")], none⟩
    ∧ (⟨"http 500", some [("status", "500")], [("method", "post")], none⟩ : JsError) ≠ eAxios :=
  ⟨rfl, by decide⟩

/-- C3 (amended): if any chunk's execution fails (every earlier chunk
having succeeded), the chunked POST rejects with that error after
pre-serialization — `maybePreSerializeAxiosError` is applied at the inner
and the outer POST level — and no combined result is returned; an error
without a `response` property is propagated unchanged. -/
theorem c3_failfast_preserialized (exec : List CallDesc → Except JsError RResult)
    (cfg : ChunkCfg) (calls : List CallDesc) (pre post : List (List CallDesc))
    (c : List CallDesc) (e : JsError)
    (hsplit : chunkJS cfg.length calls = pre ++ c :: post)
    (hpre : ∀ x ∈ pre, ∃ r, exec x = Except.ok r)
    (hc : exec c = Except.error e) :
    POSTchunked exec cfg calls
      = Except.error (maybePreSerializeAxiosError (maybePreSerializeAxiosError e))
    ∧ (e.response = none → POSTchunked exec cfg calls = Except.error e) := by
  have hdir : POSTdirect exec c = Except.error (maybePreSerializeAxiosError e) := by
    simp [POSTdirect, hc]
  have hpre' : ∀ x ∈ pre, ∃ r, POSTdirect exec x = Except.ok r := by
    intro x hx
    obtain ⟨r, hr⟩ := hpre x hx
    exact ⟨r, by simp [POSTdirect, hr]⟩
  have hdisp : dispatchChunks exec (chunkJS cfg.length calls)
      = Except.error (maybePreSerializeAxiosError e) := by
    unfold dispatchChunks
    rw [hsplit]
    exact mapMExcept_append_error (POSTdirect exec) c post
      (maybePreSerializeAxiosError e) hdir pre hpre'
  have hid : e.response = none → maybePreSerializeAxiosError e = e := by
    intro hresp
    unfold maybePreSerializeAxiosError
    rw [hresp]
  have hmain : POSTchunked exec cfg calls
      = Except.error (maybePreSerializeAxiosError (maybePreSerializeAxiosError e)) := by
    unfold POSTchunked
    rw [hdisp]
  refine ⟨hmain, ?_⟩
  intro hresp
  rw [hmain, hid hresp, hid hresp]

/-- C3 witness: a two-chunk batch whose second chunk fails with an error
that has no `response` property rejects with exactly that error. -/
theorem c3_failfast_witness :
    POSTchunked execFailSecond cfgArray1 [descA, descB] = Except.error eNoResponse :=
  (c3_failfast_preserialized execFailSecond cfgArray1 [descA, descB] [[descA]] [] [descB]
    eNoResponse rfl
    (by
      intro x hx
      rw [List.mem_singleton] at hx
      subst hx
      exact ⟨⟨some 1, JsValue.arr []⟩, rfl⟩)
    rfl).2 rfl

/-- C4 (confirmed): for every descriptor list and every chunk size of at
least 1, flattening the planned chunks back in chunk order reproduces the
original list exactly, and the equality the source asserts — input length
equals the sum of the chunk lengths — always holds. -/
theorem c4_chunk_roundtrip {α : Type} (M : Nat) (hM : 1 ≤ M) (l : List α) :
    (chunkJS M l).flatten = l ∧ ((chunkJS M l).map List.length).sum = l.length :=
  ⟨chunkJS_join M hM l, chunkJS_sum_length M hM l⟩

/-- C4 witness: chunking three elements with chunk size 2. -/
theorem c4_chunk_roundtrip_witness :
    (chunkJS 2 [(0 : Nat), 1, 2]).flatten = [0, 1, 2]
    ∧ ((chunkJS 2 [(0 : Nat), 1, 2]).map List.length).sum = [(0 : Nat), 1, 2].length :=
  c4_chunk_roundtrip 2 (by decide) [0, 1, 2]

/-- C5 (code bug): a pair whose token0 and token1 are both in the
supported set yields only ONE balance descriptor, not two.  The second
discovery pass spreads `pairs[pairAddress]` — which is always `undefined`,
`pairs` being an integer-indexed array — instead of
`tokenPairs[pairAddress]`, so it overwrites the record written by the
first pass and the pair's `token0Address` edge is lost. -/
theorem c5_both_supported_single_descriptor :
    buildBalanceCalls (tvlTokenPairs ["0xaaa", "0xbbb"] ["0xppp"] ["0xaaa"] ["0xbbb"])
      = [⟨"0xbbb", "0xppp"⟩]
    ∧ (buildBalanceCalls
        (tvlTokenPairs ["0xaaa", "0xbbb"] ["0xppp"] ["0xaaa"] ["0xbbb"])).length ≠ 2 :=
  ⟨by decide, by decide⟩

/-- C6 (confirmed): when the accumulated balance mapping has zero entries
the returned mapping is exactly the zero address mapped to the plain
number 0, and otherwise the accumulated mapping is returned as-is. -/
theorem c6_empty_sentinel (b : List (String × JsValue)) :
    (b.length = 0 →
      finalizeBalances b = [("0x0000000000000000000000000000000000000000", JsValue.num 0)])
    ∧ (b.length ≠ 0 → finalizeBalances b = b) := by
  constructor <;> intro h <;> simp [finalizeBalances, h]

/-- C6 witness: the sentinel on the empty mapping and the identity on a
one-entry mapping. -/
theorem c6_empty_sentinel_witness :
    finalizeBalances [] = [("0x0000000000000000000000000000000000000000", JsValue.num 0)]
    ∧ finalizeBalances [("0xa", JsValue.num 5)] = [("0xa", JsValue.num 5)] :=
  ⟨(c6_empty_sentinel []).1 rfl, (c6_empty_sentinel [("0xa", JsValue.num 5)]).2 (by decide)⟩

/-- C7 (corrected, counterexample): the membership test is NOT
case-insensitive, because the allow-list is never case-normalized.  The
token output `"0xab"` differs from the allow-list entry `"0xAB"` only in
letter case (their lower-casings agree and they are distinct), yet the
pair is not retained. -/
theorem c7_uppercase_entry_not_retained :
    jsToLowerCase "0xab" = jsToLowerCase "0xAB"
    ∧ "0xab" ≠ "0xAB"
    ∧ tokenIsSupported ["0xAB"] "0xab" = false :=
  ⟨by decide, by decide, by decide⟩

/-- C7 (amended): only the on-chain token address is lower-cased before
the membership test, while the allow-list is used verbatim; hence a token
is retained whenever its lower-cased address appears literally in the
allow-list — so case-insensitivity on the token side holds exactly when
the matching allow-list entry is already lower-case. -/
theorem c7_lowercase_entry_membership (supportedTokens : List String) (addr entry : String)
    (hmem : entry ∈ supportedTokens) (hlc : jsToLowerCase addr = entry) :
    tokenIsSupported supportedTokens addr = true := by
  unfold tokenIsSupported
  rw [hlc]
  exact List.elem_iff.mpr hmem

/-- C7 witness: a mixed-case token address is retained against a
lower-case allow-list entry. -/
theorem c7_lowercase_entry_membership_witness :
    tokenIsSupported ["0xab"] "0xAB" = true :=
  c7_lowercase_entry_membership ["0xab"] "0xAB" "0xab" (by decide) (by decide)

/-- C8 (corrected, counterexample): on the empty descriptor list the batch
operation does NOT return an empty result with zero network calls: it
performs exactly one network round-trip (forwarding the empty request) and
returns whatever the remote responds — here a non-empty output. -/
theorem c8_empty_list_one_network_call :
    POSTfuel execStub7 2 [] (some cfg5000)
      = some (⟨some 7, JsValue.arr [JsValue.str "x"]⟩, 1)
    ∧ (1 : Nat) ≠ 0 :=
  ⟨rfl, by decide⟩

/-- C8 (amended): for the empty descriptor list the chunking condition
(list length strictly greater than the chunk length) is false, so `POST`
takes the direct branch: it performs exactly one network call with the
empty request and returns the remote's response. -/
theorem c8_empty_list_direct_branch (exec : List CallDesc → RResult)
    (cfgOpt : Option ChunkCfg) :
    POSTfuel exec 2 [] cfgOpt = some (exec [], 1) := by
  cases cfgOpt with
  | none => rfl
  | some cfg =>
    rw [show (2 : Nat) = 1 + 1 from rfl, POSTfuel_succ_some]
    rw [if_neg (by simp)]

/-- C9 (confirmed): when the factory pair-count read returns null, the TVL
computation aborts immediately with `Error("allPairsLength() failed")`:
the call trace ends at the single (non-retried) factory read and no
further call is issued. -/
theorem c9_null_pairlength_aborts :
    tvlDiscover none
      = (Except.error "allPairsLength() failed",
         [TvlCall.supportedTokensCall, TvlCall.allPairsLengthCall])
    ∧ (tvlDiscover none).2.count TvlCall.allPairsLengthCall = 1 :=
  ⟨rfl, rfl⟩

/-- C10 (confirmed): the chunked batch operation terminates on every
input: every chunk produced by the chunking branch has length at most the
configured chunk length, so each recursive `POST` call takes the
non-chunking branch, and recursion depth 2 suffices for every request. -/
theorem c10_recursion_depth_two (exec : List CallDesc → RResult) (calls : List CallDesc)
    (cfgOpt : Option ChunkCfg) :
    (POSTfuel exec 2 calls cfgOpt).isSome = true := by
  cases cfgOpt with
  | none => rfl
  | some cfg =>
    rw [show (2 : Nat) = 1 + 1 from rfl, POSTfuel_succ_some]
    by_cases h : calls.length > cfg.length
    · rw [if_pos h]
      have hsome : ∀ c ∈ chunkJS cfg.length calls,
          (POSTfuel exec 1 c (some cfg)).isSome := by
        intro c hc
        have hlen := chunkJS_length_le cfg.length calls c hc
        rw [show (1 : Nat) = 0 + 1 from rfl, POSTfuel_succ_some]
        rw [if_neg (by omega)]
        rfl
      have hms := mapMOption_isSome (fun c => POSTfuel exec 1 c (some cfg))
        (chunkJS cfg.length calls) hsome
      obtain ⟨rs, hrs⟩ := Option.isSome_iff_exists.mp hms
      rw [hrs]
      rfl
    · rw [if_neg h]
      rfl
